import Mathlib

/-!
Verification of the streaming normalization engine of the oagw-sdk crate:
the SSE chunk-to-event parser (`src/sse/parse.rs`), the dispatch predicate
(`src/sse/detect.rs`), the event data model (`src/sse/event.rs`), and the
WebSocket bridge / JSON codec (`src/ws/stream.rs`, `src/ws/message.rs`,
`src/codec.rs`, `src/error.rs`).

Text is modelled as `List Char` (the code point sequence of a Rust `String`),
raw wire bytes as `List Nat`, and the pull-based streams as finite lists:
the parser's `unfold` loop is deterministic, so the complete sequence of
yielded items is a function of the list of source items.
-/

/-! ## Data model: `ServerEvent` (src/sse/event.rs) and errors (src/error.rs) -/

/-- A parsed Server-Sent Event (struct `ServerEvent` in src/sse/event.rs). -/
structure ServerEvent where
  id : Option (List Char)
  event : Option (List Char)
  data : List Char
  retry : Option Nat
deriving DecidableEq, Repr

/-- The `Default` instance of `ServerEvent`: all fields unset/empty. -/
def ServerEvent.empty : ServerEvent := ⟨none, none, [], none⟩

/-- Mirror of `ServerEvent::is_empty` in src/sse/event.rs. -/
def ServerEvent.isEmpty (e : ServerEvent) : Bool :=
  e.data.isEmpty && e.id.isNone && e.event.isNone && e.retry.isNone

/-- Mirror of `enum StreamingError` in src/error.rs (variants relevant to the
streaming helpers).  The transport ("boxed") error type is a parameter `ε`;
error detail strings are code point lists.  The `ServerEventsParse` detail
produced by the parser embeds the display of the Rust `Utf8Error`; the model
keeps only its constant prefix, which no claim inspects. -/
inductive StreamingError (ε : Type) where
  | serverEventsParse (detail : List Char)
  | stream (e : ε)
  | webSocketConnect (detail : List Char)
  | webSocketBridge (detail : List Char)
deriving DecidableEq, Repr

instance {ε α : Type} [DecidableEq ε] [DecidableEq α] : DecidableEq (Except ε α) := fun x y =>
  match x, y with
  | .ok a, .ok b => if h : a = b then .isTrue (by rw [h]) else .isFalse (by simp [h])
  | .ok _, .error _ => .isFalse (by simp)
  | .error _, .ok _ => .isFalse (by simp)
  | .error a, .error b => if h : a = b then .isTrue (by rw [h]) else .isFalse (by simp [h])

/-! ## Line and field parsing (src/sse/parse.rs, `parse_line`) -/

/-- Mirror of `line.starts_with(c)` on a code point list. -/
def startsWithChar (s : List Char) (c : Char) : Bool :=
  match s with
  | [] => false
  | a :: _ => a = c

/-- Mirror of `v.strip_prefix(' ').unwrap_or(v)`: remove exactly one leading
space if present. -/
def stripOneSpace (v : List Char) : List Char :=
  match v with
  | c :: t => if c = ' ' then t else c :: t
  | [] => []

/-- Mirror of `line.find(':')` combined with the two slices `&line[..pos]` and
`&line[pos + 1..]`: split at the first colon, `none` when there is no colon. -/
def splitColon : List Char → Option (List Char × List Char)
  | [] => none
  | c :: t =>
    if c = ':' then some ([], t)
    else (splitColon t).map (fun p => (c :: p.1, p.2))

/-- Mirror of `<u64 as FromStr>::from_str` as used by `value.parse::<u64>()`:
an optional leading `+`, then one or more ASCII digits, rejecting overflow
past `u64::MAX`. -/
def parseU64 (s : List Char) : Option Nat :=
  let t := match s with
    | '+' :: r => r
    | _ => s
  if t = [] then none
  else if t.all (fun c => c.isDigit) then
    let n := t.foldl (fun acc c => acc * 10 + (c.toNat - 48)) 0
    if n < 2 ^ 64 then some n else none
  else none

/-- Mirror of `fn parse_line(line, event)` in src/sse/parse.rs: comment lines
are skipped, the line splits at the first `:` (no colon: the whole line is the
field name, empty value), one leading space is stripped from the value, and
the `data` / `event` / `id` / `retry` fields are applied with their guards. -/
def parseLine (line : List Char) (ev : ServerEvent) : ServerEvent :=
  if startsWithChar line ':' then ev
  else
    let p := match splitColon line with
      | some (f, v) => (f, stripOneSpace v)
      | none => (line, ([] : List Char))
    let field := p.1
    let value := p.2
    if field = "data".data then
      { ev with data := if ev.data.isEmpty then value else ev.data ++ '\n' :: value }
    else if field = "event".data then
      { ev with event := some value }
    else if field = "id".data then
      if value.contains '\x00' then ev else { ev with id := some value }
    else if field = "retry".data then
      match parseU64 value with
      | some ms => { ev with retry := some ms }
      | none => ev
    else ev

/-! ## Line splitting (Rust `str::lines`) and block parsing -/

/-- Split on `'\n'` keeping empty segments (always at least one segment). -/
def splitNl : List Char → List (List Char)
  | [] => [[]]
  | c :: t =>
    if c = '\n' then [] :: splitNl t
    else
      match splitNl t with
      | [] => [[c]]
      | l :: ls => (c :: l) :: ls

/-- Remove one trailing `'\r'` from a line, as Rust `str::lines` does. -/
def stripTrailingCr (l : List Char) : List Char :=
  if l.getLast? = some '\r' then l.dropLast else l

/-- Mirror of Rust `str::lines()`: split on `'\n'`, drop a final empty segment
produced by a trailing newline (so `""` has no lines), and strip one trailing
`'\r'` from every line. -/
def linesOf (s : List Char) : List (List Char) :=
  let parts := splitNl s
  (if parts.getLast? = some [] then parts.dropLast else parts).map stripTrailingCr

/-- Parse one event block line-by-line, as the loops
`for line in block.lines() { parse_line(line, &mut event); }` do. -/
def blockEvent (block : List Char) : ServerEvent :=
  (linesOf block).foldl (fun e l => parseLine l e) ServerEvent.empty

/-! ## Line-ending normalization (src/sse/parse.rs, `normalize_line_endings`) -/

/-- Mirror of `s.replace("\r\n", "\n")` (leftmost, non-overlapping). -/
def replaceCrlf : List Char → List Char
  | [] => []
  | [c] => [c]
  | c :: c2 :: t =>
    if c = '\r' ∧ c2 = '\n' then '\n' :: replaceCrlf t
    else c :: replaceCrlf (c2 :: t)

/-- Mirror of `.replace('\r', "\n")`. -/
def crToLf (s : List Char) : List Char :=
  s.map (fun c => if c = '\r' then '\n' else c)

/-- Mirror of `fn normalize_line_endings`: CRLF to LF, then bare CR to LF. -/
def normalizeLineEndings (s : List Char) : List Char :=
  crToLf (replaceCrlf s)

/-! ## Event extraction (src/sse/parse.rs, `extract_events`) -/

/-- Mirror of `buf.find("\n\n")` plus the two slices around it: the text
before the first blank-line boundary and the text after the two newlines. -/
def findBB : List Char → Option (List Char × List Char)
  | [] => none
  | c :: t =>
    if c = '\n' ∧ t.head? = some '\n' then some ([], t.tail)
    else (findBB t).map (fun p => (c :: p.1, p.2))

/-- Mirror of `remainder.trim_start_matches('\n')`. -/
def dropNl (s : List Char) : List Char :=
  s.dropWhile (fun c => c = '\n')

/-- The events contributed by one block in `extract_events`: an empty block is
skipped, and a parsed event is pushed only when it is non-empty. -/
def blockEvents (block : List Char) : List ServerEvent :=
  if block.isEmpty then []
  else if (blockEvent block).isEmpty then []
  else [blockEvent block]

/-- The loop body of `fn extract_events`, made structurally recursive with an
explicit iteration budget: each found boundary consumes the block plus at
least two newlines, so a budget of the buffer length always exceeds the
number of loop iterations and the `0` case is never the one that stops the
loop. -/
def extractGo : Nat → List Char → List ServerEvent × List Char
  | 0, buf => ([], buf)
  | fuel + 1, buf =>
    match findBB buf with
    | none => ([], buf)
    | some (block, rest) =>
      let out := extractGo fuel (dropNl rest)
      (blockEvents block ++ out.1, out.2)

/-- Mirror of `fn extract_events`: repeatedly split the buffer at the first
blank-line boundary, parse each non-empty block, keep non-empty events, and
skip extra consecutive newlines; return the extracted events and the remaining
(partial) buffer. -/
def extractEvents (buf : List Char) : List ServerEvent × List Char :=
  extractGo buf.length buf

/-! ## UTF-8 decoding (`std::str::from_utf8` as used in src/sse/parse.rs) -/

/-- Result of decoding a byte sequence: either a decoded code point list plus
the trailing bytes of an incomplete final sequence (empty on full success,
matching `Ok` / `Err` with `error_len() == None` in Rust), or a hard failure
(`Err` with `error_len() == Some(_)`). -/
inductive Utf8Result where
  | valid (text : List Char) (tail : List Nat)
  | invalid
deriving DecidableEq, Repr

/-- Prepend a decoded code point to a decode result. -/
def utf8Cons (c : Char) : Utf8Result → Utf8Result
  | .valid t tl => .valid (c :: t) tl
  | .invalid => .invalid

/-- A UTF-8 continuation byte. -/
def isCont (b : Nat) : Bool := 0x80 ≤ b ∧ b ≤ 0xBF

/-- Valid second byte of a three-byte sequence led by `b` (the table in
`core::str::validations`, rejecting overlong forms and surrogates). -/
def snd3ok (b b1 : Nat) : Bool :=
  if b = 0xE0 then 0xA0 ≤ b1 ∧ b1 ≤ 0xBF
  else if b = 0xED then 0x80 ≤ b1 ∧ b1 ≤ 0x9F
  else isCont b1

/-- Valid second byte of a four-byte sequence led by `b` (rejecting overlong
forms and code points above U+10FFFF). -/
def snd4ok (b b1 : Nat) : Bool :=
  if b = 0xF0 then 0x90 ≤ b1 ∧ b1 ≤ 0xBF
  else if b = 0xF4 then 0x80 ≤ b1 ∧ b1 ≤ 0x8F
  else isCont b1

/-- Mirror of `std::str::from_utf8` on a byte list: decodes greedily from the
left; a malformed sequence anywhere is `invalid` (Rust `error_len() = Some`),
while running out of bytes inside a well-formed partial sequence returns the
decoded prefix and the pending tail bytes (Rust `error_len() = None`, with
`valid_up_to` marking the prefix). -/
def utf8Decode : List Nat → Utf8Result
  | [] => .valid [] []
  | b :: rest =>
    if b ≤ 0x7F then utf8Cons (Char.ofNat b) (utf8Decode rest)
    else if 0xC2 ≤ b ∧ b ≤ 0xDF then
      match rest with
      | [] => .valid [] [b]
      | b1 :: r =>
        if isCont b1 then
          utf8Cons (Char.ofNat ((b - 0xC0) * 0x40 + (b1 - 0x80))) (utf8Decode r)
        else .invalid
    else if 0xE0 ≤ b ∧ b ≤ 0xEF then
      match rest with
      | [] => .valid [] [b]
      | b1 :: r1 =>
        if snd3ok b b1 then
          match r1 with
          | [] => .valid [] [b, b1]
          | b2 :: r =>
            if isCont b2 then
              utf8Cons (Char.ofNat ((b - 0xE0) * 0x1000 + (b1 - 0x80) * 0x40 + (b2 - 0x80)))
                (utf8Decode r)
            else .invalid
        else .invalid
    else if 0xF0 ≤ b ∧ b ≤ 0xF4 then
      match rest with
      | [] => .valid [] [b]
      | b1 :: r1 =>
        if snd4ok b b1 then
          match r1 with
          | [] => .valid [] [b, b1]
          | b2 :: r2 =>
            if isCont b2 then
              match r2 with
              | [] => .valid [] [b, b1, b2]
              | b3 :: r =>
                if isCont b3 then
                  utf8Cons
                    (Char.ofNat
                      ((b - 0xF0) * 0x40000 + (b1 - 0x80) * 0x1000 +
                        (b2 - 0x80) * 0x40 + (b3 - 0x80)))
                    (utf8Decode r)
                else .invalid
            else .invalid
        else .invalid
    else .invalid

/-! ## The parser stream (src/sse/parse.rs, `parse_server_events_stream`) -/

/-- Mirror of `text.strip_prefix('\u{FEFF}').unwrap_or(&text)`. -/
def stripBom (s : List Char) : List Char :=
  match s with
  | c :: t => if c = '\uFEFF' then t else c :: t
  | [] => []

/-- The Unicode `White_Space` property, as tested by Rust `char::is_whitespace`
(used through `str::trim`). -/
def isRustWhitespace (c : Char) : Bool :=
  c.toNat ∈ ([0x09, 0x0A, 0x0B, 0x0C, 0x0D, 0x20, 0x85, 0xA0, 0x1680,
    0x2000, 0x2001, 0x2002, 0x2003, 0x2004, 0x2005, 0x2006, 0x2007, 0x2008,
    0x2009, 0x200A, 0x2028, 0x2029, 0x202F, 0x205F, 0x3000] : List Nat)

/-- Mirror of Rust `str::trim`: drop `White_Space` code points at both ends. -/
def rustTrim (s : List Char) : List Char :=
  ((s.dropWhile isRustWhitespace).reverse.dropWhile isRustWhitespace).reverse

/-- The end-of-source flush of `parse_server_events_stream`: when `done` is
set and the buffer is non-blank, the whole buffer is parsed line-by-line as
one final block and the event is yielded when non-empty. -/
def flushOut {ε : Type} (buf : List Char) : List (Except (StreamingError ε) ServerEvent) :=
  if rustTrim buf = [] then []
  else if (blockEvent buf).isEmpty then []
  else [Except.ok (blockEvent buf)]

/-- Complete run of the `unfold` loop of `parse_server_events_stream` from a
given parser state (text buffer, pending UTF-8 tail bytes, first-chunk flag)
over the remaining byte-source items, collecting every yielded item in order.
The pending-event queue is elided because the loop always drains it before
pulling the next source item, so extracted events are emitted immediately. -/
def runFrom {ε : Type} (buf : List Char) (tl : List Nat) (first : Bool) :
    List (Except ε (List Nat)) → List (Except (StreamingError ε) ServerEvent)
  | [] => flushOut buf
  | .error e :: _ => .error (.stream e) :: flushOut buf
  | .ok chunk :: rest =>
    match utf8Decode (tl ++ chunk) with
    | .invalid => .error (.serverEventsParse "invalid UTF-8".data) :: runFrom buf [] first rest
    | .valid text tl' =>
      if text.isEmpty then runFrom buf tl' first rest
      else
        let text2 := if first then stripBom text else text
        let buf1 := buf ++ normalizeLineEndings text2
        let ex := extractEvents buf1
        ex.1.map .ok ++ runFrom ex.2 tl' false rest

/-- Mirror of `parse_server_events_stream`: the complete item sequence of the
returned stream, starting from the initial state (empty buffer, no UTF-8
tail, first-chunk flag set). -/
def parseServerEventsStream {ε : Type} (items : List (Except ε (List Nat))) :
    List (Except (StreamingError ε) ServerEvent) :=
  runFrom [] [] true items

/-- ASCII text rendered as its byte sequence (test inputs only). -/
def asciiBytes (s : String) : List Nat :=
  s.data.map Char.toNat

/-! ## WebSocket messages (src/ws/message.rs) and receive path (src/ws/stream.rs) -/

/-- Mirror of `struct WebSocketCloseFrame` in src/ws/message.rs. -/
structure WebSocketCloseFrame where
  code : Nat
  reason : List Char
deriving DecidableEq, Repr

/-- Mirror of `enum WebSocketMessage` in src/ws/message.rs. -/
inductive WebSocketMessage where
  | text (s : List Char)
  | binary (b : List Nat)
  | ping (b : List Nat)
  | pong (b : List Nat)
  | close (frame : Option WebSocketCloseFrame)
deriving DecidableEq, Repr

/-- Application-data frames (`Text` / `Binary`), the only variants passed to
the typed conversion. -/
def WebSocketMessage.isData : WebSocketMessage → Bool
  | .text _ => true
  | .binary _ => true
  | _ => false

/-- Close frames. -/
def WebSocketMessage.isClose : WebSocketMessage → Bool
  | .close _ => true
  | _ => false

/-- Complete drain of `WebSocketStream::recv` (equivalently, the item sequence
of its `Stream::poll_next`): Ping and Pong are skipped, the first Close ends
the sequence, Text and Binary are passed through the typed conversion `conv`,
and an error item from the underlying receiver is yielded as-is. -/
def recvAll {ε α : Type} (conv : WebSocketMessage → Except (StreamingError ε) α) :
    List (Except (StreamingError ε) WebSocketMessage) →
      List (Except (StreamingError ε) α)
  | [] => []
  | .error e :: rest => .error e :: recvAll conv rest
  | .ok m :: rest =>
    match m with
    | .ping _ => recvAll conv rest
    | .pong _ => recvAll conv rest
    | .close _ => []
    | .text s => conv (.text s) :: recvAll conv rest
    | .binary b => conv (.binary b) :: recvAll conv rest

/-! ## The JSON codec (src/codec.rs and the impl in src/ws/stream.rs) -/

/-- Mirror of `struct Json<T>(pub T)` in src/codec.rs. -/
structure Json (α : Type) where
  val : α
deriving DecidableEq, Repr

/-- Mirror of `Json::<T>::to_ws_message`: serialize the wrapped value and wrap
it in a Text message.  The serde serializer is the parameter `ser`. -/
def jsonToWsMessage {α : Type} (ser : α → List Char) (v : Json α) : WebSocketMessage :=
  .text (ser v.val)

/-- Mirror of `Json::<T>::from_ws_message`: a Text message is deserialized
(the serde deserializer is the parameter `de`, whose error value is its
display string); every other variant is rejected with the fixed
`WebSocketBridge` detail text of the source. -/
def jsonFromWsMessage {ε α : Type} (de : List Char → Except (List Char) α) :
    WebSocketMessage → Except (StreamingError ε) (Json α)
  | .text s =>
    match de s with
    | .ok v => .ok ⟨v⟩
    | .error msg => .error (.webSocketBridge msg)
  | _ => .error (.webSocketBridge "expected Text message for JSON deserialization, got Binary".data)

/-! ## Dispatch decision (src/sse/detect.rs) -/

/-- Lower-case an ASCII letter (`http::HeaderName` stores names lower-cased
and compares them case-insensitively). -/
def asciiLower (c : Char) : Char :=
  if 'A' ≤ c ∧ c ≤ 'Z' then Char.ofNat (c.toNat + 32) else c

/-- Mirror of `HeaderMap::get(name)`: the first entry whose name equals `name`
after ASCII lower-casing. -/
def headerGet (headers : List (List Char × List Char)) (name : List Char) :
    Option (List Char) :=
  (headers.find? (fun h => h.1.map asciiLower = name)).map (fun h => h.2)

/-- Mirror of `HeaderValue::to_str`: succeeds iff every code point is visible
ASCII or horizontal tab. -/
def headerValueToStr (v : List Char) : Option (List Char) :=
  if v.all (fun c => c = '\t' ∨ (0x20 ≤ c.toNat ∧ c.toNat < 0x7F)) then some v else none

/-- Mirror of `fn is_server_events_response` in src/sse/detect.rs:
`headers.get(CONTENT_TYPE).and_then(|v| v.to_str().ok()).is_some_and(|ct| ct.starts_with("text/event-stream"))`. -/
def isServerEventsResponse (headers : List (List Char × List Char)) : Bool :=
  match headerGet headers "content-type".data with
  | some v =>
    match headerValueToStr v with
    | some ct => "text/event-stream".data.isPrefixOf ct
    | none => false
  | none => false

/-- A concrete serializer for `Bool`, standing in for a serde `Serialize`
implementation in round-trip witnesses. -/
def serBool : Bool → List Char := fun b => if b then "true".data else "false".data

/-- A concrete deserializer for `Bool`, standing in for a serde `Deserialize`
implementation in round-trip witnesses. -/
def deBool : List Char → Except (List Char) Bool := fun s =>
  if s = "true".data then .ok true else if s = "false".data then .ok false else .error s

/-! ## Helper lemmas -/

theorem splitColon_none (f : List Char) (hf : f.contains ':' = false) : splitColon f = none := by
  induction f with
  | nil => rfl
  | cons c t ih =>
    simp only [List.contains_cons, Bool.or_eq_false_iff, beq_eq_false_iff_ne, ne_eq] at hf
    rw [splitColon, if_neg (by exact fun he => hf.1 he.symm), ih hf.2]
    rfl

theorem splitColon_append (f v : List Char) (hf : f.contains ':' = false) :
    splitColon (f ++ ':' :: v) = some (f, v) := by
  induction f with
  | nil => simp [splitColon]
  | cons c t ih =>
    simp only [List.contains_cons, Bool.or_eq_false_iff, beq_eq_false_iff_ne, ne_eq] at hf
    rw [List.cons_append, splitColon, if_neg (by exact fun he => hf.1 he.symm), ih hf.2]
    rfl

theorem blockEvents_mem_nonempty (block : List Char) (ev : ServerEvent)
    (h : ev ∈ blockEvents block) : ev.isEmpty = false := by
  unfold blockEvents at h
  split at h
  · simp at h
  · split at h
    · simp at h
    · rename_i hne
      simp only [List.mem_singleton] at h
      subst h
      simpa using hne

theorem extractGo_mem_nonempty :
    ∀ (fuel : Nat) (buf : List Char) (ev : ServerEvent),
      ev ∈ (extractGo fuel buf).1 → ev.isEmpty = false := by
  intro fuel
  induction fuel with
  | zero => intro buf ev h; simp [extractGo] at h
  | succ n ih =>
    intro buf ev h
    rw [extractGo] at h
    cases hfb : findBB buf with
    | none => rw [hfb] at h; simp at h
    | some p =>
      rw [hfb] at h
      obtain ⟨block, rest⟩ := p
      simp only [List.mem_append] at h
      rcases h with h | h
      · exact blockEvents_mem_nonempty _ _ h
      · exact ih _ _ h

theorem flushOut_mem_nonempty {ε : Type} (buf : List Char) (ev : ServerEvent)
    (h : Except.ok ev ∈ flushOut (ε := ε) buf) : ev.isEmpty = false := by
  unfold flushOut at h
  split at h
  · simp at h
  · split at h
    · simp at h
    · rename_i hne
      simp only [List.mem_singleton, Except.ok.injEq] at h
      subst h
      simpa using hne

theorem runFrom_mem_ok_nonempty {ε : Type} :
    ∀ (items : List (Except ε (List Nat))) (buf : List Char) (tl : List Nat) (first : Bool)
      (e : ServerEvent), Except.ok e ∈ runFrom buf tl first items → e.isEmpty = false := by
  intro items
  induction items with
  | nil => intro buf tl first e h; exact flushOut_mem_nonempty buf e h
  | cons it rest ih =>
    intro buf tl first e h
    cases it with
    | error e' =>
      rw [runFrom] at h
      rcases List.mem_cons.mp h with h | h
      · simp at h
      · exact flushOut_mem_nonempty buf e h
    | ok chunk =>
      rw [runFrom] at h
      cases hd : utf8Decode (tl ++ chunk) with
      | invalid =>
        simp only [hd] at h
        rcases List.mem_cons.mp h with h | h
        · simp at h
        · exact ih _ _ _ _ h
      | valid text tl' =>
        simp only [hd] at h
        by_cases ht : text.isEmpty
        · simp only [ht, if_true] at h
          exact ih _ _ _ _ h
        · simp only [Bool.not_eq_true] at ht
          simp only [ht, Bool.false_eq_true, if_false, List.mem_append] at h
          rcases h with h | h
          · rcases List.mem_map.mp h with ⟨ev', hmem, heq⟩
            cases heq
            exact extractGo_mem_nonempty _ _ _ hmem
          · exact ih _ _ _ _ h

/-! ## Claim theorems -/

/-- C1: the claim states that after a truly invalid UTF-8 chunk the parser
yields exactly one decode-error item and then the sequence ends, with no
further chunks read.  The code does yield exactly one error for the invalid
chunk alone, but it does not mark the stream done: the second conjunct shows
that a following chunk is still read and its event is yielded after the error
item, contradicting the claim (and the code's own "unrecoverable" intent). -/
theorem claim1_invalid_utf8_not_terminal :
    parseServerEventsStream (ε := Unit) [.ok [0xFF, 0xFE]] =
      [.error (.serverEventsParse "invalid UTF-8".data)] ∧
    parseServerEventsStream (ε := Unit) [.ok [0xFF, 0xFE], .ok (asciiBytes "data: x\n\n")] =
      [.error (.serverEventsParse "invalid UTF-8".data), .ok ⟨none, none, "x".data, none⟩] :=
  ⟨by decide, by decide⟩

/-- C2: the claim states chunk-boundary invariance for every re-chunking of
the same bytes.  It fails when a chunk boundary falls between the `\r` and
`\n` of a CRLF pair: line endings are normalized per chunk, so the split pair
becomes two newlines — a spurious event boundary.  The same bytes parse as
one event (`data = "a\nb"`) in a single chunk but as two events (`"a"`,
`"b"`) when split after the `\r`. -/
theorem claim2_crlf_chunk_split_breaks_invariance :
    parseServerEventsStream (ε := Unit)
        [.ok (asciiBytes "data: a\r"), .ok (asciiBytes "\ndata: b\n\n")] =
      [.ok ⟨none, none, "a".data, none⟩, .ok ⟨none, none, "b".data, none⟩] ∧
    parseServerEventsStream (ε := Unit)
        [.ok (asciiBytes "data: a\r" ++ asciiBytes "\ndata: b\n\n")] =
      [.ok ⟨none, none, "a\nb".data, none⟩] ∧
    parseServerEventsStream (ε := Unit)
        [.ok (asciiBytes "data: a\r"), .ok (asciiBytes "\ndata: b\n\n")] ≠
      parseServerEventsStream (ε := Unit)
        [.ok (asciiBytes "data: a\r" ++ asciiBytes "\ndata: b\n\n")] :=
  ⟨by decide, by decide, by decide⟩

/-- C3 counterexample: the claim states the Content-Type value is matched
case-insensitively, so `"Text/Event-Stream"` should dispatch as SSE;
the code's `starts_with` comparison is case-sensitive and returns false. -/
theorem claim3_counterexample_value_case :
    isServerEventsResponse [("Content-Type".data, "Text/Event-Stream".data)] = false := by
  decide

/-- C3 amended: `is_server_events_response` returns true iff a Content-Type
header is present (name matched case-insensitively by the header map), its
value converts to a string (visible ASCII), and the value starts with
`"text/event-stream"` compared case-sensitively; a missing header yields
false. -/
theorem claim3_dispatch_case_sensitive (headers : List (List Char × List Char)) :
    isServerEventsResponse headers = true ↔
      ∃ v, headerGet headers "content-type".data = some v ∧
        headerValueToStr v = some v ∧
        "text/event-stream".data.isPrefixOf v = true := by
  unfold isServerEventsResponse
  cases hg : headerGet headers "content-type".data with
  | none => simp
  | some v =>
    cases hs : headerValueToStr v with
    | none =>
      constructor
      · intro h
        simp only [hs] at h
        simp at h
      · rintro ⟨w, hw1, hw2, hw3⟩
        simp only [Option.some.injEq] at hw1
        subst hw1
        rw [hs] at hw2
        simp at hw2
    | some ct =>
      have hv : ct = v := by
        unfold headerValueToStr at hs
        split at hs
        · exact (Option.some.injEq _ _ ▸ hs).symm
        · simp at hs
      subst hv
      constructor
      · intro h
        simp only [hs] at h
        exact ⟨ct, rfl, hs, h⟩
      · rintro ⟨w, hw1, hw2, hw3⟩
        simp only [Option.some.injEq] at hw1
        subst hw1
        simp only [hs]
        exact hw3

/-- C4 counterexample: the claim states that after the transport-error item
the sequence ends with no further items of any kind, in particular no event
parsed from previously buffered text.  With `"data: x"` buffered and then a
transport error, the stream yields the error item and then flushes the
buffered text as one final event — a second item after the error. -/
theorem claim4_counterexample_flush_after_error :
    parseServerEventsStream (ε := Unit) [.ok (asciiBytes "data: x"), .error ()] =
      [.error (.stream ()), .ok ⟨none, none, "x".data, none⟩] ∧
    (parseServerEventsStream (ε := Unit) [.ok (asciiBytes "data: x"), .error ()]).length = 2 :=
  ⟨by decide, by decide⟩

/-- C4 amended: when the next source item is a transport error, the stream
yields exactly one error item wrapping that error and reads no further source
items (the right-hand side does not depend on `rest`); it then ends after
flushing the buffered text as one final block — the flush of the current
buffer, yielded only when non-blank and non-empty. -/
theorem claim4_transport_error_stops_reading {ε : Type} (buf : List Char) (tl : List Nat)
    (first : Bool) (e : ε) (rest : List (Except ε (List Nat))) :
    runFrom buf tl first (.error e :: rest) = .error (.stream e) :: flushOut buf := rfl

/-- C5: on the WebSocket receive path, Ping and Pong are never surfaced, the
first Close ends the sequence, and every Text or Binary message before the
first Close is passed through the typed conversion and yielded as its result;
in particular Ping, Pong, Text("data"), Close yields exactly the converted
Text("data") and then end-of-sequence. -/
theorem claim5_ws_receive_filtering :
    (∀ {α : Type} (conv : WebSocketMessage → Except (StreamingError Unit) α)
        (msgs : List WebSocketMessage),
      recvAll conv (msgs.map .ok) =
        ((msgs.takeWhile (fun m => !m.isClose)).filter WebSocketMessage.isData).map conv) ∧
    (∀ {α : Type} (conv : WebSocketMessage → Except (StreamingError Unit) α),
      recvAll conv
          [.ok (.ping []), .ok (.pong []), .ok (.text "data".data), .ok (.close none)] =
        [conv (.text "data".data)]) := by
  constructor
  · intro α conv msgs
    induction msgs with
    | nil => rfl
    | cons m rest ih =>
      cases m <;>
        simp [recvAll, WebSocketMessage.isClose, WebSocketMessage.isData,
          List.takeWhile_cons, List.filter, ih]
  · intro α conv
    rfl

/-- C6: field-parsing rules of `parse_line` — a `:`-led line is a comment and
changes nothing; a field with no colon or an unknown/differently-cased name is
ignored; a `data` value has exactly one leading space stripped (further spaces
kept) and is appended to `data` with a `\n` separator iff `data` is non-empty
(a bare `data` line appends an empty value); an `id` value containing NUL is
ignored while the rest of the block parses normally; a `retry` value that
does not parse as a `u64` is ignored.  All cases return an event, never an
error: the embedding of `parse_line` is total into `ServerEvent`. -/
theorem claim6_field_parsing_rules :
    (∀ (t : List Char) (ev : ServerEvent), parseLine (':' :: t) ev = ev) ∧
    (∀ (f : List Char) (ev : ServerEvent), f.contains ':' = false →
      f ≠ "data".data → f ≠ "event".data → f ≠ "id".data → f ≠ "retry".data →
      parseLine f ev = ev ∧ ∀ v : List Char, parseLine (f ++ ':' :: v) ev = ev) ∧
    (∀ (v : List Char) (ev : ServerEvent),
      parseLine ("data:".data ++ (' ' :: v)) ev =
        { ev with data := if ev.data.isEmpty then v else ev.data ++ '\n' :: v }) ∧
    (∀ (v : List Char) (ev : ServerEvent), v.head? ≠ some ' ' →
      parseLine ("data:".data ++ v) ev =
        { ev with data := if ev.data.isEmpty then v else ev.data ++ '\n' :: v }) ∧
    (∀ ev : ServerEvent, parseLine "data".data ev =
      { ev with data := if ev.data.isEmpty then ([] : List Char) else ev.data ++ ['\n'] }) ∧
    (∀ (v : List Char) (ev : ServerEvent), (stripOneSpace v).contains '\x00' = true →
      parseLine ("id:".data ++ v) ev = ev) ∧
    (∀ (v : List Char) (ev : ServerEvent), parseU64 (stripOneSpace v) = none →
      parseLine ("retry:".data ++ v) ev = ev) ∧
    blockEvent "id: a\x00b\ndata: test".data = ⟨none, none, "test".data, none⟩ := by
  refine ⟨fun t ev => rfl, ?_, fun v ev => rfl, ?_, fun ev => rfl, ?_, ?_, by decide⟩
  · intro f ev hf h1 h2 h3 h4
    have hsw : ∀ rest : List Char, startsWithChar (f ++ rest) ':' = false ∨ f = [] := by
      intro rest
      cases f with
      | nil => exact Or.inr rfl
      | cons c t =>
        left
        simp only [List.contains_cons, Bool.or_eq_false_iff, beq_eq_false_iff_ne, ne_eq] at hf
        simp only [List.cons_append, startsWithChar, decide_eq_false_iff_not]
        exact fun he => hf.1 he.symm
    constructor
    · cases f with
      | nil => rfl
      | cons c t =>
        rcases hsw [] with hs | hs
        · rw [List.append_nil] at hs
          unfold parseLine
          rw [hs]
          simp only [Bool.false_eq_true, if_false]
          rw [splitColon_none _ hf]
          simp only []
          rw [if_neg h1, if_neg h2, if_neg h3, if_neg h4]
        · exact absurd hs (by simp)
    · intro v
      cases f with
      | nil => rfl
      | cons c t =>
        rcases hsw (':' :: v) with hs | hs
        · unfold parseLine
          rw [hs]
          simp only [Bool.false_eq_true, if_false]
          rw [splitColon_append _ _ hf]
          simp only []
          rw [if_neg h1, if_neg h2, if_neg h3, if_neg h4]
        · exact absurd hs (by simp)
  · intro v ev h
    have hs : stripOneSpace v = v := by
      cases v with
      | nil => rfl
      | cons c t =>
        have hc : c ≠ ' ' := by simpa using h
        simp [stripOneSpace, hc]
    have he : parseLine ("data:".data ++ v) ev =
        { ev with data := if ev.data.isEmpty then stripOneSpace v
            else ev.data ++ '\n' :: stripOneSpace v } := rfl
    rw [he, hs]
  · intro v ev h
    have he : parseLine ("id:".data ++ v) ev =
        if (stripOneSpace v).contains '\x00' then ev
        else { ev with id := some (stripOneSpace v) } := rfl
    rw [he, if_pos h]
  · intro v ev h
    have he : parseLine ("retry:".data ++ v) ev =
        match parseU64 (stripOneSpace v) with
        | some ms => { ev with retry := some ms }
        | none => ev := rfl
    rw [he, h]

/-- C6 witness: the rules of `claim6_field_parsing_rules` instantiated on
concrete lines — a differently-cased field name, an id value with a NUL byte,
and a non-numeric retry value are all ignored. -/
theorem claim6_field_parsing_rules_witness :
    parseLine ("Data".data ++ ':' :: " ignored".data) ServerEvent.empty = ServerEvent.empty ∧
    parseLine ("id:".data ++ " a\x00b".data) ServerEvent.empty = ServerEvent.empty ∧
    parseLine ("retry:".data ++ "1000x".data) ServerEvent.empty = ServerEvent.empty :=
  ⟨(claim6_field_parsing_rules.2.1 "Data".data ServerEvent.empty (by decide) (by decide)
      (by decide) (by decide) (by decide)).2 " ignored".data,
    claim6_field_parsing_rules.2.2.2.2.2.1 " a\x00b".data ServerEvent.empty (by decide),
    claim6_field_parsing_rules.2.2.2.2.2.2.1 "1000x".data ServerEvent.empty (by decide)⟩

/-- C7: when the byte source ends, the stream yields exactly the flush of the
remaining buffer — the buffer parsed as one final block under the same field
rules, yielded iff it is non-blank and the event is non-empty; in particular
a trailing `"data: trailing"` with no blank line still produces one event. -/
theorem claim7_end_of_source_flush :
    (∀ (buf : List Char) (tl : List Nat) (first : Bool),
      runFrom (ε := Unit) buf tl first [] = flushOut buf) ∧
    parseServerEventsStream (ε := Unit) [.ok (asciiBytes "data: trailing")] =
      [.ok ⟨none, none, "trailing".data, none⟩] :=
  ⟨fun _ _ _ => rfl, by decide⟩

/-- C8: every event surfaced by the parser is non-empty (it has an id, event
type, data, or retry), for every input sequence and at every stage including
the end-of-source flush; a comment-only block yields no event at all. -/
theorem claim8_no_empty_event_surfaced :
    (∀ (items : List (Except Unit (List Nat))) (e : ServerEvent),
      Except.ok e ∈ parseServerEventsStream items → e.isEmpty = false) ∧
    parseServerEventsStream (ε := Unit) [.ok (asciiBytes ": comment\n\n")] = [] :=
  ⟨fun items e h => runFrom_mem_ok_nonempty items [] [] true e h, by decide⟩

/-- C8 witness: `claim8_no_empty_event_surfaced` applied to the concrete
stream `"data: x\n\n"`, whose single surfaced event is indeed non-empty. -/
theorem claim8_no_empty_event_surfaced_witness :
    (⟨none, none, "x".data, none⟩ : ServerEvent).isEmpty = false :=
  claim8_no_empty_event_surfaced.1 [.ok (asciiBytes "data: x\n\n")] _ (by decide)

/-- C9: round-trip of the JSON WebSocket codec — for any type with a
serializer and deserializer satisfying the serde round-trip contract,
`to_ws_message` produces a Text message and `from_ws_message` of that message
succeeds with a value equal to the original. -/
theorem claim9_json_ws_roundtrip {α : Type} (ser : α → List Char)
    (de : List Char → Except (List Char) α) (h : ∀ t, de (ser t) = .ok t) (v : Json α) :
    jsonToWsMessage ser v = .text (ser v.val) ∧
    jsonFromWsMessage (ε := Unit) de (jsonToWsMessage ser v) = .ok v := by
  refine ⟨rfl, ?_⟩
  cases v with
  | mk x =>
    simp [jsonToWsMessage, jsonFromWsMessage, h x]

/-- C9 witness: `claim9_json_ws_roundtrip` applied to the concrete `Bool`
codec, round-tripping `Json.mk true`. -/
theorem claim9_json_ws_roundtrip_witness :
    jsonFromWsMessage (ε := Unit) deBool (jsonToWsMessage serBool ⟨true⟩) = .ok ⟨true⟩ :=
  (claim9_json_ws_roundtrip serBool deBool (fun t => by cases t <;> decide) ⟨true⟩).2

/-- C10: the JSON codec's `from_ws_message` rejects every non-Text message —
Binary, Ping, Pong and Close alike — with a conversion error whose detail
text always says a Binary message was received. -/
theorem claim10_json_rejects_non_text {α : Type} (de : List Char → Except (List Char) α)
    (b p q : List Nat) (fr : Option WebSocketCloseFrame) :
    jsonFromWsMessage (ε := Unit) de (.binary b) =
        .error (.webSocketBridge
          "expected Text message for JSON deserialization, got Binary".data) ∧
    jsonFromWsMessage (ε := Unit) de (.ping p) =
        .error (.webSocketBridge
          "expected Text message for JSON deserialization, got Binary".data) ∧
    jsonFromWsMessage (ε := Unit) de (.pong q) =
        .error (.webSocketBridge
          "expected Text message for JSON deserialization, got Binary".data) ∧
    jsonFromWsMessage (ε := Unit) de (.close fr) =
        .error (.webSocketBridge
          "expected Text message for JSON deserialization, got Binary".data) :=
  ⟨rfl, rfl, rfl, rfl⟩
